import Mathlib

/-!
Verification of the plan-extraction / storage / day-selection core of the
vchatter-streamlit app (`app.py`).

Python strings are embedded as `List Char`, Python `json` values as the
inductive `Json` below, files as association lists from path to contents.
Machine-level concerns (HTTP transport, Streamlit rendering, CSV quoting,
the cp932 byte encoding of the log) are modelled at the level of the values
they carry.  A Python function that can raise is embedded as an
`Option`-returning function where `none` marks an uncaught exception.
-/

namespace VChat

/-! ## Python string primitives (`str` as `List Char`) -/

/-- Characters of a Lean string literal, used to write Python string
constants from the source. -/
def strOf (s : String) : List Char := s.data

/-- Whitespace stripped by Python `str.strip()` (ASCII subset). -/
def isPyWs (c : Char) : Bool :=
  c = ' ' || c = '\t' || c = '\n' || c = '\r' || c = '\x0b' || c = '\x0c'

/-- Python `str.strip()`. -/
def pyStrip (l : List Char) : List Char :=
  ((l.dropWhile isPyWs).reverse.dropWhile isPyWs).reverse

/-- Python slice `l[a:b]` for nonnegative bounds (`b < a` gives `[]`). -/
def pySlice {α : Type} (l : List α) (a b : Nat) : List α :=
  (l.drop a).take (b - a)

/-- Python `str.find(sub)`: index of the leftmost occurrence, `none` for -1. -/
def strFindGo (p : List Char) : List Char → Nat → Option Nat
  | [], i => if p.isPrefixOf ([] : List Char) then some i else none
  | l@(_ :: xs), i => if p.isPrefixOf l then some i else strFindGo p xs (i + 1)

def strFind (p l : List Char) : Option Nat := strFindGo p l 0

/-- Search downward from index `i`: the rightmost occurrence at or below `i`. -/
def rfindFrom (p l : List Char) : Nat → Option Nat
  | 0 => if p.isPrefixOf l then some 0 else none
  | i + 1 => if p.isPrefixOf (l.drop (i + 1)) then some (i + 1) else rfindFrom p l i

/-- Python `str.rfind(sub)`: index of the rightmost occurrence, `none` for -1. -/
def strRFind (p l : List Char) : Option Nat := rfindFrom p l l.length

/-! ## Model of Python `json` values

`Json` stands for the values `json.loads` produces / `json.dump` consumes:
`None`, `bool`, `int` (floats are not modelled; the app's records carry
strings), `str`, `list`, `dict`.  A Python `dict` is embedded as its
key/value list in insertion order; `dict` equality is embedded as equality
of those lists. -/

inductive Json where
  | null
  | bool (b : Bool)
  | num (n : Int)
  | str (s : List Char)
  | arr (elems : List Json)
  | obj (fields : List (List Char × Json))

/-- Python truthiness of a json value (`bool(x)`). -/
def pyTruthy : Json → Bool
  | .null => false
  | .bool b => b
  | .num n => n != 0
  | .str s => !s.isEmpty
  | .arr l => !l.isEmpty
  | .obj l => !l.isEmpty

/-- Python `dict.get(k)` on an embedded dict (first binding of the key;
`json.loads` never produces duplicate keys for inputs `json.dump` wrote). -/
def dictGet (fields : List (List Char × Json)) (k : List Char) : Option Json :=
  fields.lookup k

def isObj : Json → Bool
  | .obj _ => true
  | _ => false

/-! ## Decimal digits -/

def digitChar (d : Nat) : Char :=
  if d = 0 then '0' else if d = 1 then '1' else if d = 2 then '2'
  else if d = 3 then '3' else if d = 4 then '4' else if d = 5 then '5'
  else if d = 6 then '6' else if d = 7 then '7' else if d = 8 then '8' else '9'

def natToCharsGo (fuel : Nat) (n : Nat) (acc : List Char) : List Char :=
  match fuel with
  | 0 => acc
  | fuel + 1 => if n = 0 then acc else natToCharsGo fuel (n / 10) (digitChar (n % 10) :: acc)

/-- Decimal rendering of a natural number, most significant digit first. -/
def natToChars (n : Nat) : List Char :=
  if n = 0 then ['0'] else natToCharsGo (n + 1) n []

/-- Python `str(int)` / the json rendering of an integer. -/
def intToChars (n : Int) : List Char :=
  if n < 0 then '-' :: natToChars n.natAbs else natToChars n.natAbs

/-- Numeric value of a digit string, most significant digit first. -/
def charsToNat (l : List Char) : Nat :=
  l.foldl (fun a c => a * 10 + (c.toNat - 48)) 0

/-! ## `json.dump`: rendering a json value to text

`save_plan_to_file` writes with `ensure_ascii=False, indent=2`; the model
renders compactly (the parser below is whitespace-insensitive, so the
stored value is unaffected). -/

def escapeChar (c : Char) : List Char :=
  if c = '"' || c = '\\' then ['\\', c] else [c]

def escapeStr : List Char → List Char
  | [] => []
  | c :: cs => escapeChar c ++ escapeStr cs

def renderStr (s : List Char) : List Char := '"' :: (escapeStr s ++ ['"'])

mutual

def render : Json → List Char
  | .num n => intToChars n
  | .str s => renderStr s
  | .arr (x :: xs) => '[' :: (render x ++ (renderElems xs ++ [']']))
  | .arr [] => strOf "[]"
  | .obj (m :: ms) => '\x7b' :: (renderMem m ++ (renderMems ms ++ ['\x7d']))
  | .obj [] => strOf "\x7b\x7d"
  | .bool b => if b then strOf "true" else strOf "false"
  | .null => strOf "null"

def renderMem : List Char × Json → List Char
  | (k, v) => renderStr k ++ (':' :: render v)

def renderElems : List Json → List Char
  | [] => []
  | x :: xs => ',' :: (render x ++ renderElems xs)

def renderMems : List (List Char × Json) → List Char
  | [] => []
  | m :: ms => ',' :: (renderMem m ++ renderMems ms)

end

/-! ## `json.loads`: a recursive-descent parser

Models the strict parser of the Python `json` module on the fragment the
app exchanges: no floats, no exponents, no `\uXXXX` escapes.  Inputs
outside the fragment fail to parse, which the app treats the same way as
any other `json.JSONDecodeError`. -/

def isJsonWs (c : Char) : Bool :=
  c = ' ' || c = '\t' || c = '\n' || c = '\r'

def skipWs (l : List Char) : List Char := l.dropWhile isJsonWs

def unescChar (c : Char) : Option Char :=
  if c = '"' then some '"'
  else if c = '\\' then some '\\'
  else if c = '/' then some '/'
  else if c = 'n' then some '\n'
  else if c = 't' then some '\t'
  else if c = 'r' then some '\r'
  else if c = 'b' then some '\x08'
  else if c = 'f' then some '\x0c'
  else none

/-- Parse the body of a string literal after the opening quote. -/
def pStrBody : List Char → Option (List Char × List Char)
  | [] => none
  | c :: r =>
    if c = '"' then some ([], r)
    else if c = '\\' then
      match r with
      | [] => none
      | e :: r2 =>
        match unescChar e with
        | none => none
        | some d => (pStrBody r2).map (fun p => (d :: p.1, p.2))
    else (pStrBody r).map (fun p => (c :: p.1, p.2))

/-- Parse an integer literal (optionally signed digit run). -/
def pNum (l : List Char) : Option (Json × List Char) :=
  match l with
  | [] => none
  | c :: r =>
    if c = '-' then
      let digs := r.takeWhile Char.isDigit
      if digs.isEmpty then none
      else some (.num (-(charsToNat digs : Int)), r.dropWhile Char.isDigit)
    else
      let digs := (c :: r).takeWhile Char.isDigit
      if digs.isEmpty then none
      else some (.num ((charsToNat digs : Int)), (c :: r).dropWhile Char.isDigit)

mutual

def parseVal : Nat → List Char → Option (Json × List Char)
  | 0, _ => none
  | f + 1, cs =>
    match skipWs cs with
    | [] => none
    | c :: r =>
      if c = 'n' then
        match r with
        | 'u' :: 'l' :: 'l' :: r2 => some (.null, r2)
        | _ => none
      else if c = 't' then
        match r with
        | 'r' :: 'u' :: 'e' :: r2 => some (.bool true, r2)
        | _ => none
      else if c = 'f' then
        match r with
        | 'a' :: 'l' :: 's' :: 'e' :: r2 => some (.bool false, r2)
        | _ => none
      else if c = '"' then
        (pStrBody r).map (fun p => (.str p.1, p.2))
      else if c = '[' then
        match skipWs r with
        | ']' :: r2 => some (.arr [], r2)
        | _ => (parseElems f r).map (fun p => (.arr p.1, p.2))
      else if c = '\x7b' then
        match skipWs r with
        | '\x7d' :: r2 => some (.obj [], r2)
        | _ => (parseMems f r).map (fun p => (.obj p.1, p.2))
      else pNum (c :: r)

def parseElems : Nat → List Char → Option (List Json × List Char)
  | 0, _ => none
  | f + 1, cs =>
    match parseVal f cs with
    | none => none
    | some (j, r) =>
      match skipWs r with
      | ',' :: r2 => (parseElems f r2).map (fun p => (j :: p.1, p.2))
      | ']' :: r2 => some ([j], r2)
      | _ => none

def parseMems : Nat → List Char → Option (List (List Char × Json) × List Char)
  | 0, _ => none
  | f + 1, cs =>
    match skipWs cs with
    | '"' :: r =>
      match pStrBody r with
      | none => none
      | some (k, r1) =>
        match skipWs r1 with
        | ':' :: r2 =>
          match parseVal f r2 with
          | none => none
          | some (v, r3) =>
            match skipWs r3 with
            | ',' :: r4 => (parseMems f r4).map (fun p => ((k, v) :: p.1, p.2))
            | '\x7d' :: r4 => some ([(k, v)], r4)
            | _ => none
        | _ => none
    | _ => none

end

/-- Python `json.loads`: parse a complete document, rejecting trailing
garbage. -/
def pyLoads (l : List Char) : Option Json :=
  match parseVal (l.length + 1) l with
  | some (j, rest) => if skipWs rest = [] then some j else none
  | none => none

/-! ## Round-trip: `pyLoads (render j) = some j`

This is the `json.dump` / `json.load` round-trip the plan store relies on;
it also yields decidable equality of `Json` (render is injective). -/

theorem digitChar_isDigit (d : Nat) : (digitChar d).isDigit = true := by
  unfold digitChar
  repeat' split
  all_goals rfl

theorem digitChar_toNat (d : Nat) (h : d < 10) : (digitChar d).toNat - 48 = d := by
  interval_cases d <;> decide

theorem charsToNat_digits (ds : List Nat) (h : ∀ d ∈ ds, d < 10) :
    charsToNat ((ds.map digitChar).reverse) = Nat.ofDigits 10 ds := by
  induction ds with
  | nil => rfl
  | cons d tl ih =>
    have inner : List.foldr (fun x y => y * 10 + (x.toNat - 48)) 0 (tl.map digitChar)
        = Nat.ofDigits 10 tl := by
      have h2 := ih (fun e he => h e (List.mem_cons_of_mem _ he))
      rwa [charsToNat, List.foldl_reverse] at h2
    rw [charsToNat, List.map_cons, List.foldl_reverse, List.foldr_cons, inner,
      digitChar_toNat d (h d (List.mem_cons_self d tl)), Nat.ofDigits_cons]
    ring

theorem natToCharsGo_eq (fuel : Nat) : ∀ n acc, n ≤ fuel →
    natToCharsGo fuel n acc = ((Nat.digits 10 n).map digitChar).reverse ++ acc := by
  induction fuel with
  | zero =>
    intro n acc h
    have hn : n = 0 := by omega
    subst hn
    simp [natToCharsGo]
  | succ fuel ih =>
    intro n acc h
    by_cases hn : n = 0
    · subst hn
      simp [natToCharsGo]
    · rw [natToCharsGo, if_neg hn]
      rw [ih (n / 10) _ (by
        have := Nat.div_lt_self (Nat.pos_of_ne_zero hn) (by norm_num : 1 < 10)
        omega)]
      rw [Nat.digits_def' (by norm_num : (1 : ℕ) < 10) (Nat.pos_of_ne_zero hn)]
      simp

theorem natToChars_eq (n : Nat) : natToChars n
    = if n = 0 then ['0'] else ((Nat.digits 10 n).map digitChar).reverse := by
  unfold natToChars
  split
  · rfl
  · rw [natToCharsGo_eq (n + 1) n [] (by omega)]
    simp

theorem charsToNat_natToChars (n : Nat) : charsToNat (natToChars n) = n := by
  rw [natToChars_eq]
  split
  · simp_all [charsToNat]
  · rw [charsToNat_digits _ (fun d hd => Nat.digits_lt_base (by norm_num) hd)]
    exact Nat.ofDigits_digits 10 n

theorem natToChars_ne_nil (n : Nat) : natToChars n ≠ [] := by
  rw [natToChars_eq]
  split
  · simp
  · simp only [ne_eq, List.reverse_eq_nil_iff, List.map_eq_nil_iff]
    exact Nat.digits_ne_nil_iff_ne_zero.mpr (by assumption)

theorem natToChars_digits (n : Nat) : ∀ c ∈ natToChars n, c.isDigit = true := by
  intro c hc
  rw [natToChars_eq] at hc
  split at hc
  · simp at hc; subst hc; rfl
  · rw [List.mem_reverse, List.mem_map] at hc
    obtain ⟨d, _, rfl⟩ := hc
    exact digitChar_isDigit d

theorem natToChars_head (n : Nat) :
    ∃ c cs, natToChars n = c :: cs ∧ c.isDigit = true := by
  cases h : natToChars n with
  | nil => exact absurd h (natToChars_ne_nil n)
  | cons c cs =>
    exact ⟨c, cs, rfl, natToChars_digits n c (h ▸ List.mem_cons_self c cs)⟩

theorem ne_of_isDigit {c x : Char} (h : c.isDigit = true) (hx : x.isDigit = false) :
    c ≠ x := by
  intro e; subst e; rw [h] at hx; exact absurd hx (by decide)

theorem isJsonWs_eq_false_of_isDigit {c : Char} (h : c.isDigit = true) :
    isJsonWs c = false := by
  unfold isJsonWs
  rw [decide_eq_false (ne_of_isDigit h (by decide)),
    decide_eq_false (ne_of_isDigit h (by decide)),
    decide_eq_false (ne_of_isDigit h (by decide)),
    decide_eq_false (ne_of_isDigit h (by decide))]
  rfl

theorem skipWs_cons_of_not {c : Char} (l : List Char) (h : isJsonWs c = false) :
    skipWs (c :: l) = c :: l := by
  simp [skipWs, List.dropWhile_cons, h]

theorem takeWhile_append_all {p : Char → Bool} (xs ys : List Char)
    (h1 : ∀ x ∈ xs, p x = true) (h2 : ∀ c, ys.head? = some c → p c = false) :
    (xs ++ ys).takeWhile p = xs ∧ (xs ++ ys).dropWhile p = ys := by
  induction xs with
  | nil =>
    cases ys with
    | nil => simp
    | cons y ys' => simp [List.takeWhile_cons, List.dropWhile_cons, h2 y rfl]
  | cons x xs' ih =>
    have hx := h1 x (List.mem_cons_self x xs')
    have ⟨t, d⟩ := ih (fun a ha => h1 a (List.mem_cons_of_mem _ ha))
    simp [List.takeWhile_cons, List.dropWhile_cons, hx, t, d]

theorem pNum_intToChars (n : Int) (rest : List Char)
    (hrest : ∀ c, rest.head? = some c → c.isDigit = false) :
    pNum (intToChars n ++ rest) = some (.num n, rest) := by
  unfold intToChars
  split
  · -- negative: '-' :: digits
    rename_i hneg
    obtain ⟨c, cs, hn, _⟩ := natToChars_head n.natAbs
    rw [hn]
    have span := takeWhile_append_all (p := Char.isDigit) (c :: cs) rest
      (fun x hx => natToChars_digits n.natAbs x (hn ▸ hx)) hrest
    show pNum ('-' :: ((c :: cs) ++ rest)) = _
    rw [pNum, if_pos rfl]
    simp only [span.1, span.2]
    rw [if_neg (by simp)]
    have hcv : charsToNat (c :: cs) = n.natAbs := by rw [← hn]; exact charsToNat_natToChars _
    have hval : -((charsToNat (c :: cs) : Nat) : Int) = n := by rw [hcv]; omega
    rw [hval]
  · -- nonnegative: plain digits
    rename_i hneg
    obtain ⟨c, cs, hn, hc⟩ := natToChars_head n.natAbs
    rw [hn]
    have span := takeWhile_append_all (p := Char.isDigit) (c :: cs) rest
      (fun x hx => natToChars_digits n.natAbs x (hn ▸ hx)) hrest
    show pNum (c :: (cs ++ rest)) = _
    rw [pNum, if_neg (ne_of_isDigit hc (by decide))]
    simp only [← List.cons_append, span.1, span.2]
    rw [if_neg (by simp)]
    have hcv : charsToNat (c :: cs) = n.natAbs := by rw [← hn]; exact charsToNat_natToChars _
    have hval : ((charsToNat (c :: cs) : Nat) : Int) = n := by rw [hcv]; omega
    rw [hval]

theorem pStrBody_escape (s rest : List Char) :
    pStrBody (escapeStr s ++ ('"' :: rest)) = some (s, rest) := by
  induction s with
  | nil =>
    show pStrBody ('"' :: rest) = _
    rw [pStrBody.eq_def]
    simp
  | cons c cs ih =>
    show pStrBody ((escapeChar c ++ escapeStr cs) ++ _) = _
    unfold escapeChar
    split
    · -- escaped char: backslash then the char itself
      rename_i hc
      have hc' : c = '"' ∨ c = '\\' := by simpa using hc
      have hu : unescChar c = some c := by
        rcases hc' with h | h <;> subst h <;> rfl
      simp only [List.cons_append, List.nil_append]
      rw [pStrBody.eq_def]
      simp [hu, ih]
    · rename_i hc
      have h1 : ¬ c = '"' := fun e => hc (by subst e; simp)
      have h2 : ¬ c = '\\' := fun e => hc (by subst e; simp)
      simp only [List.cons_append, List.nil_append]
      rw [pStrBody.eq_def]
      simp [h1, h2, ih]

/-! ### Fuel accounting for the parser -/

mutual

def jsize : Json → Nat
  | .arr l => 1 + lsizeJ l
  | .obj l => 1 + msizeJ l
  | .str _ => 1
  | .num _ => 1
  | .bool _ => 1
  | .null => 1

def lsizeJ : List Json → Nat
  | [] => 0
  | x :: xs => 1 + jsize x + lsizeJ xs

def msizeJ : List (List Char × Json) → Nat
  | [] => 0
  | (_, v) :: ms => 1 + jsize v + msizeJ ms

end

theorem jsize_pos (j : Json) : 1 ≤ jsize j := by
  cases j <;> simp [jsize]

/-- Every rendering starts with a character that is not whitespace and not a
closing delimiter or separator. -/
theorem render_shape (j : Json) : ∃ c cs, render j = c :: cs ∧ isJsonWs c = false ∧
    c ≠ ']' ∧ c ≠ ',' ∧ c ≠ '\x7d' ∧ c ≠ ':' := by
  cases j with
  | null => exact ⟨'n', _, rfl, by decide, by decide, by decide, by decide, by decide⟩
  | bool b =>
    cases b
    · exact ⟨'f', _, rfl, by decide, by decide, by decide, by decide, by decide⟩
    · exact ⟨'t', _, rfl, by decide, by decide, by decide, by decide, by decide⟩
  | num n =>
    show ∃ c cs, intToChars n = c :: cs ∧ _
    unfold intToChars
    split
    · exact ⟨'-', _, rfl, by decide, by decide, by decide, by decide, by decide⟩
    · obtain ⟨c, cs, hn, hc⟩ := natToChars_head n.natAbs
      exact ⟨c, cs, hn, isJsonWs_eq_false_of_isDigit hc,
        ne_of_isDigit hc (by decide), ne_of_isDigit hc (by decide),
        ne_of_isDigit hc (by decide), ne_of_isDigit hc (by decide)⟩
  | str s => exact ⟨'"', _, rfl, by decide, by decide, by decide, by decide, by decide⟩
  | arr l =>
    cases l
    · exact ⟨'[', _, rfl, by decide, by decide, by decide, by decide, by decide⟩
    · exact ⟨'[', _, rfl, by decide, by decide, by decide, by decide, by decide⟩
  | obj l =>
    cases l
    · exact ⟨'\x7b', _, rfl, by decide, by decide, by decide, by decide, by decide⟩
    · exact ⟨'\x7b', _, rfl, by decide, by decide, by decide, by decide, by decide⟩

/-! ### The parser inverts the renderer -/

theorem renderParse_all (f : Nat) :
    (∀ (j : Json) (rest : List Char), jsize j ≤ f →
      (∀ c, rest.head? = some c → c.isDigit = false) →
      parseVal f (render j ++ rest) = some (j, rest)) ∧
    (∀ (x : Json) (xs : List Json) (rest : List Char), lsizeJ (x :: xs) ≤ f →
      parseElems f ((render x ++ renderElems xs) ++ (']' :: rest)) = some (x :: xs, rest)) ∧
    (∀ (k : List Char) (v : Json) (ms : List (List Char × Json)) (rest : List Char),
      msizeJ ((k, v) :: ms) ≤ f →
      parseMems f ((renderMem (k, v) ++ renderMems ms) ++ ('\x7d' :: rest))
        = some ((k, v) :: ms, rest)) := by
  induction f with
  | zero =>
    refine ⟨?_, ?_, ?_⟩
    · intro j rest hf _
      exact absurd hf (by have := jsize_pos j; omega)
    · intro x xs rest hf
      simp only [lsizeJ] at hf
      omega
    · intro k v ms rest hf
      simp only [msizeJ] at hf
      omega
  | succ f' ih =>
    refine ⟨?_, ?_, ?_⟩
    · -- parseVal inverts render
      intro j rest hf hrest
      cases j with
      | null => rfl
      | bool b => cases b <;> rfl
      | num n =>
        show parseVal (f' + 1) (intToChars n ++ rest) = _
        by_cases hn : n < 0
        · have hi : intToChars n = '-' :: natToChars n.natAbs := by
            rw [intToChars, if_pos hn]
          rw [hi, parseVal.eq_def]
          simp only [List.cons_append]
          rw [skipWs_cons_of_not _ (by decide)]
          simp only []
          rw [if_neg (by decide), if_neg (by decide), if_neg (by decide), if_neg (by decide),
            if_neg (by decide), if_neg (by decide)]
          rw [← List.cons_append, ← hi]
          exact pNum_intToChars n rest hrest
        · obtain ⟨c, cs, hnc, hc⟩ := natToChars_head n.natAbs
          have hi : intToChars n = c :: cs := by rw [intToChars, if_neg hn]; exact hnc
          rw [hi, parseVal.eq_def]
          simp only [List.cons_append]
          rw [skipWs_cons_of_not _ (isJsonWs_eq_false_of_isDigit hc)]
          simp only []
          rw [if_neg (ne_of_isDigit hc (by decide)), if_neg (ne_of_isDigit hc (by decide)),
            if_neg (ne_of_isDigit hc (by decide)), if_neg (ne_of_isDigit hc (by decide)),
            if_neg (ne_of_isDigit hc (by decide)), if_neg (ne_of_isDigit hc (by decide))]
          rw [← List.cons_append, ← hi]
          exact pNum_intToChars n rest hrest
      | str s =>
        show parseVal (f' + 1) (renderStr s ++ rest) = _
        rw [parseVal.eq_def]
        simp only [renderStr, List.cons_append, List.append_assoc, List.singleton_append,
          List.nil_append]
        rw [skipWs_cons_of_not _ (by decide)]
        simp only []
        rw [if_neg (by decide), if_neg (by decide), if_neg (by decide), if_pos trivial]
        rw [pStrBody_escape]
        rfl
      | arr l =>
        cases l with
        | nil => rfl
        | cons x xs =>
          show parseVal (f' + 1) (('[' :: (render x ++ (renderElems xs ++ [']']))) ++ rest) = _
          rw [parseVal.eq_def]
          simp only [List.cons_append, List.append_assoc, List.singleton_append, List.nil_append]
          rw [skipWs_cons_of_not _ (by decide)]
          simp only []
          rw [if_neg (by decide), if_neg (by decide), if_neg (by decide), if_neg (by decide),
            if_pos trivial]
          obtain ⟨c, cs, hx, hws, hbr, _, _, _⟩ := render_shape x
          have hr : render x ++ (renderElems xs ++ (']' :: rest))
              = c :: (cs ++ (renderElems xs ++ (']' :: rest))) := by rw [hx]; simp
          rw [hr, skipWs_cons_of_not _ hws]
          split
          · rename_i r2 heq
            rw [List.cons.injEq] at heq
            exact absurd heq.1 hbr
          · rw [← hr, ← List.append_assoc]
            rw [ih.2.1 x xs rest (by simp only [jsize] at hf; omega)]
            rfl
      | obj l =>
        cases l with
        | nil => rfl
        | cons m ms =>
          obtain ⟨k, v⟩ := m
          show parseVal (f' + 1)
              (('\x7b' :: (renderMem (k, v) ++ (renderMems ms ++ ['\x7d']))) ++ rest) = _
          rw [parseVal.eq_def]
          simp only [List.cons_append, List.append_assoc, List.singleton_append, List.nil_append]
          rw [skipWs_cons_of_not _ (by decide)]
          simp only []
          rw [if_neg (by decide), if_neg (by decide), if_neg (by decide), if_neg (by decide),
            if_neg (by decide), if_pos trivial]
          have hr : renderMem (k, v) ++ (renderMems ms ++ ('\x7d' :: rest))
              = '"' :: (escapeStr k
                ++ ('"' :: (':' :: (render v ++ (renderMems ms ++ ('\x7d' :: rest)))))) := by
            simp [renderMem, renderStr]
          rw [hr, skipWs_cons_of_not _ (by decide)]
          split
          · rename_i r2 heq
            rw [List.cons.injEq] at heq
            exact absurd heq.1 (by decide)
          · rw [← hr, ← List.append_assoc]
            rw [ih.2.2 k v ms rest (by simp only [jsize] at hf; omega)]
            rfl
    · -- parseElems inverts renderElems
      intro x xs rest hf
      rw [parseElems.eq_def]
      simp only [List.append_assoc]
      have hx : parseVal f' (render x ++ (renderElems xs ++ (']' :: rest)))
          = some (x, renderElems xs ++ (']' :: rest)) := by
        apply ih.1 x _ (by simp only [lsizeJ] at hf; omega)
        intro c hc
        cases xs with
        | nil =>
          simp only [renderElems, List.nil_append, List.head?_cons, Option.some.injEq] at hc
          rw [← hc]; rfl
        | cons y ys =>
          simp only [renderElems, List.cons_append, List.head?_cons, Option.some.injEq] at hc
          rw [← hc]; rfl
      rw [hx]
      simp only []
      cases xs with
      | nil =>
        simp only [renderElems, List.nil_append]
        rw [skipWs_cons_of_not _ (by decide)]
        rfl
      | cons y ys =>
        simp only [renderElems, List.cons_append]
        rw [skipWs_cons_of_not _ (by decide)]
        simp only []
        rw [ih.2.1 y ys rest (by simp only [lsizeJ] at hf ⊢; omega)]
        rfl
    · -- parseMems inverts renderMems
      intro k v ms rest hf
      rw [parseMems.eq_def]
      simp only [renderMem, renderStr, List.cons_append, List.append_assoc,
        List.singleton_append, List.nil_append]
      rw [skipWs_cons_of_not _ (by decide)]
      simp only []
      rw [pStrBody_escape]
      simp only []
      rw [skipWs_cons_of_not _ (by decide)]
      simp only []
      have hv : parseVal f' (render v ++ (renderMems ms ++ ('\x7d' :: rest)))
          = some (v, renderMems ms ++ ('\x7d' :: rest)) := by
        apply ih.1 v _ (by simp only [msizeJ] at hf; omega)
        intro c hc
        cases ms with
        | nil =>
          simp only [renderMems, List.nil_append, List.head?_cons, Option.some.injEq] at hc
          rw [← hc]; rfl
        | cons m2 ms2 =>
          simp only [renderMems, List.cons_append, List.head?_cons, Option.some.injEq] at hc
          rw [← hc]; rfl
      rw [hv]
      simp only []
      cases ms with
      | nil =>
        simp only [renderMems, List.nil_append]
        rw [skipWs_cons_of_not _ (by decide)]
        rfl
      | cons m2 ms2 =>
        obtain ⟨k2, v2⟩ := m2
        simp only [renderMems, List.cons_append]
        rw [skipWs_cons_of_not _ (by decide)]
        simp only []
        rw [ih.2.2 k2 v2 ms2 rest (by simp only [msizeJ] at hf ⊢; omega)]
        rfl

theorem renderParse (j : Json) (f : Nat) (rest : List Char) (hf : jsize j ≤ f)
    (hrest : ∀ c, rest.head? = some c → c.isDigit = false) :
    parseVal f (render j ++ rest) = some (j, rest) :=
  (renderParse_all f).1 j rest hf hrest

theorem sizes_le_render (n : Nat) :
    (∀ j : Json, jsize j ≤ n → jsize j ≤ (render j).length) ∧
    (∀ l : List Json, lsizeJ l ≤ n → lsizeJ l ≤ (renderElems l).length) ∧
    (∀ ms : List (List Char × Json), msizeJ ms ≤ n → msizeJ ms ≤ (renderMems ms).length) := by
  induction n with
  | zero =>
    refine ⟨?_, ?_, ?_⟩
    · intro j h
      exact absurd h (by have := jsize_pos j; omega)
    · intro l h
      cases l with
      | nil => simp [lsizeJ]
      | cons x xs => simp only [lsizeJ] at h; omega
    · intro ms h
      cases ms with
      | nil => simp [msizeJ]
      | cons m ms2 =>
        obtain ⟨k, v⟩ := m
        simp only [msizeJ] at h
        omega
  | succ n ih =>
    refine ⟨?_, ?_, ?_⟩
    · intro j h
      cases j with
      | null => decide
      | bool b => cases b <;> decide
      | num m =>
        have h1 : 1 ≤ (intToChars m).length := by
          unfold intToChars
          split
          · simp
          · have hne := natToChars_ne_nil m.natAbs
            cases hh : natToChars m.natAbs with
            | nil => exact absurd hh hne
            | cons a b => simp [hh]
        show jsize (Json.num m) ≤ (intToChars m).length
        simp only [jsize]
        omega
      | str s =>
        show jsize (Json.str s) ≤ (renderStr s).length
        simp [jsize, renderStr]
      | arr l =>
        cases l with
        | nil => decide
        | cons x xs =>
          have hl := ih.2.1 (x :: xs) (by simp only [jsize] at h; omega)
          show jsize (Json.arr (x :: xs)) ≤ ('[' :: (render x ++ (renderElems xs ++ [']']))).length
          simp only [jsize, renderElems, List.length_cons, List.length_append] at hl ⊢
          omega
      | obj l =>
        cases l with
        | nil => decide
        | cons m ms =>
          obtain ⟨k, v⟩ := m
          have hm := ih.2.2 ((k, v) :: ms) (by simp only [jsize] at h; omega)
          show jsize (Json.obj ((k, v) :: ms))
            ≤ ('\x7b' :: (renderMem (k, v) ++ (renderMems ms ++ ['\x7d']))).length
          simp only [jsize, renderMems, List.length_cons, List.length_append] at hm ⊢
          omega
    · intro l h
      cases l with
      | nil => simp [lsizeJ]
      | cons x xs =>
        have hx := ih.1 x (by simp only [lsizeJ] at h; omega)
        have hxs := ih.2.1 xs (by simp only [lsizeJ] at h; omega)
        simp only [lsizeJ, renderElems, List.length_cons, List.length_append]
        omega
    · intro ms h
      cases ms with
      | nil => simp [msizeJ]
      | cons m ms2 =>
        obtain ⟨k, v⟩ := m
        have hv := ih.1 v (by simp only [msizeJ] at h; omega)
        have hms := ih.2.2 ms2 (by simp only [msizeJ] at h; omega)
        simp only [msizeJ, renderMems, renderMem, renderStr, List.length_cons,
          List.length_append]
        omega

/-- The fuel `pyLoads` supplies (input length + 1) is always sufficient for a
rendered value. -/
theorem jsize_le_render (j : Json) : jsize j ≤ (render j).length :=
  (sizes_le_render (jsize j)).1 j le_rfl

theorem pyLoads_render (j : Json) : pyLoads (render j) = some j := by
  unfold pyLoads
  have h := renderParse j ((render j).length + 1) []
    (by have := jsize_le_render j; omega) (by intro c hc; simp at hc)
  rw [List.append_nil] at h
  rw [h]
  rfl

/-- `render` is injective (it parses back). -/
theorem render_inj {a b : Json} (h : render a = render b) : a = b := by
  have ha := pyLoads_render a
  have hb := pyLoads_render b
  rw [h, hb] at ha
  exact (Option.some.inj ha).symm

instance : DecidableEq Json := fun a b =>
  if h : render a = render b then isTrue (render_inj h)
  else isFalse (fun e => h (by rw [e]))

/-! # Embedding of `app.py` -/

/-! ## `level_for_day` (app.py lines 62-69) -/

/-- Maps the session day to an exposure level in the 3-day program:
day 1 → "low", day 2 → "medium", anything else → "high". -/
def level_for_day (day : Int) : List Char :=
  if day = 1 then strOf "low"
  else if day = 2 then strOf "medium"
  else strOf "high"

/-! ## Plan store (app.py lines 76-102)

The file system is an association list from path to file text; a missing
key is a missing file, a later binding shadows an earlier one (overwrite).
`json.dump` / `json.load` are `render` / `pyLoads`. -/

abbrev FS := List (List Char × List Char)

def fsRead (fs : FS) (p : List Char) : Option (List Char) := fs.lookup p

def fsWrite (fs : FS) (p contents : List Char) : FS := (p, contents) :: fs

/-- `plan_file_path`: `plans/{participant_id}_plan.json`. -/
def plan_file_path (participant_id : List Char) : List Char :=
  strOf "plans/" ++ participant_id ++ strOf "_plan.json"

/-- `save_plan_to_file`: overwrite the participant's plan file with the
serialized plan. -/
def save_plan_to_file (fs : FS) (participant_id : List Char) (plan : Json) : FS :=
  fsWrite fs (plan_file_path participant_id) (render plan)

/-- `load_plan_from_file`: `None` when the file does not exist, the parsed
record otherwise.  The outer `none` marks `json.load` raising on a file
holding no valid document. -/
def load_plan_from_file (fs : FS) (participant_id : List Char) : Option (Option Json) :=
  match fsRead fs (plan_file_path participant_id) with
  | none => some none
  | some contents =>
    match pyLoads contents with
    | some j => some (some j)
    | none => none

/-! ## `scenarios_for_day` (app.py lines 105-155) -/

/-- `plan.get("scenarios", []) or []` followed by list iteration.  `none`
marks the unmodelled cases: a non-dict plan (`.get` raises) and a truthy
non-list `scenarios` value (Python would iterate its members). -/
def getScenariosField (plan : Json) : Option (List Json) :=
  match plan with
  | .obj fields =>
    match dictGet fields (strOf "scenarios") with
    | none => some []
    | some v =>
      if pyTruthy v then
        match v with
        | .arr xs => some xs
        | _ => none
      else some []
  | _ => none

/-- `isinstance(s, dict) and s.get("level") == level_en` (line 124). -/
def levelMatches (s : Json) (level_en : List Char) : Bool :=
  match s with
  | .obj fields =>
    match dictGet fields (strOf "level") with
    | some (.str t) => t == level_en
    | _ => false
  | _ => false

/-- The fill loop of step 2 (lines 133-139): walk the scenario list,
skipping entries already selected (`if s in selected`), stopping at 2. -/
def fillLoop : List Json → List Json → List Json
  | [], selected => selected
  | s :: rest, selected =>
    if s ∈ selected then fillLoop rest selected
    else
      let selected2 := selected ++ [s]
      if 2 ≤ selected2.length then selected2 else fillLoop rest selected2

/-- `scenarios_for_day`: prefer level-tagged scenarios, fill from the rest,
then the (positional / first-two / as-is) fallbacks of lines 144-155. -/
def scenarios_for_day (plan : Json) (day : Int) : Option (List Json) :=
  match getScenariosField plan with
  | none => none
  | some scenarios =>
    if scenarios.isEmpty then some []
    else
      let level_en := level_for_day day
      let same_level := scenarios.filter (fun s => levelMatches s level_en)
      let selected := same_level.take 2
      let selected := if selected.length < 2 then fillLoop scenarios selected else selected
      if selected.isEmpty then
        if 6 ≤ scenarios.length then
          some (if day = 1 then pySlice scenarios 0 2
                else if day = 2 then pySlice scenarios 2 4
                else pySlice scenarios 4 6)
        else if 2 ≤ scenarios.length then some (scenarios.take 2)
        else some scenarios
      else some selected

/-! ## Conversation log (app.py lines 28-55, 162-195)

A log row as the CSV holds it: all fields are strings.  The file is
`Option (List LogRow)` with `none` for "does not exist"; the header row
and the cp932 byte encoding are not modelled. -/

structure LogRow where
  timestamp : List Char
  participant_id : List Char
  day : List Char
  agent : List Char
  role : List Char
  text : List Char
  emotion : List Char
deriving DecidableEq

/-- Python `int(str)`: optional sign after stripping whitespace, then at
least one digit (numeric underscores not modelled). -/
def pyToInt (l : List Char) : Option Int :=
  match pyStrip l with
  | '-' :: ds =>
    if !ds.isEmpty && ds.all Char.isDigit then some (-(charsToNat ds : Int)) else none
  | '+' :: ds =>
    if !ds.isEmpty && ds.all Char.isDigit then some ((charsToNat ds : Int)) else none
  | ds =>
    if !ds.isEmpty && ds.all Char.isDigit then some ((charsToNat ds : Int)) else none

/-- `load_previous_p_history`: missing log file → `[]`; otherwise keep this
participant's Agent-P rows from strictly earlier days (rows whose day does
not parse as an int are skipped), then return the user/assistant rows as
role/content pairs in file order. -/
def load_previous_p_history (logFile : Option (List LogRow)) (participant_id : List Char)
    (current_day : Int) : List (List Char × List Char) :=
  match logFile with
  | none => []
  | some reader =>
    let rows := reader.filter (fun row =>
      row.participant_id == participant_id &&
      row.agent == strOf "Agent-P" &&
      (match pyToInt row.day with
       | none => false
       | some d => decide (d < current_day)))
    (rows.filter (fun r => r.role == strOf "user" || r.role == strOf "assistant")).map
      (fun r => (r.role, r.text))

/-! ## Response extraction (app.py lines 652-680) -/

/-- Lines 653-660: strip; if the text starts with ``` , drop the marker
line and everything from the last ``` on, and strip again. -/
def cleanOf (raw : List Char) : List Char :=
  let clean := pyStrip raw
  if (strOf "```").isPrefixOf clean then
    match strFind (strOf "\n") clean, strRFind (strOf "```") clean with
    | some first_nl, some last_fence => pyStrip (pySlice clean (first_nl + 1) last_fence)
    | _, _ => clean
  else clean

/-- Lines 662-668: keep the span from the first `\x7b` to the last `\x7d`
when both exist in that order, else the whole cleaned text. -/
def braceSlice (clean : List Char) : List Char :=
  match strFind ['\x7b'] clean, strRFind ['\x7d'] clean with
  | some start, some stop => if start < stop then pySlice clean start (stop + 1) else clean
  | _, _ => clean

/-- The `json_str` handed to `json.loads` for a given raw response. -/
def jsonStrOf (raw : List Char) : List Char := braceSlice (cleanOf raw)

/-- The `\x7btext, emotion, plan\x7d` triple the turn handler reads out of a
model response. -/
structure ExtractResult where
  text : Json
  emotion : Json
  plan : Json
deriving DecidableEq

/-- Lines 670-680: parse the slice; when `json.loads` fails, fall back to
the raw text with emotion "unknown" and no plan; on success read the three
fields with their defaults.  `none` marks the uncaught `AttributeError`
raised by `parsed.get` when the parse produced a non-dict (list, number,
string, bool or null). -/
def extract (raw : List Char) : Option ExtractResult :=
  match pyLoads (jsonStrOf raw) with
  | none => some ⟨.str raw, .str (strOf "unknown"), .null⟩
  | some (.obj fields) =>
    let raw_text := (dictGet fields (strOf "text")).getD (.str raw)
    some ⟨(dictGet fields (strOf "text")).getD raw_text,
      (dictGet fields (strOf "emotion")).getD (.str (strOf "unknown")),
      (dictGet fields (strOf "plan")).getD .null⟩
  | some _ => none

/-! ## One chat turn (app.py lines 493-705)

State effects of the `if user_input:` block.  The prompt text itself is not
materialized; what matters for the claims is which state each branch reads
and writes and where Python can raise.  `st.session_state` is `SessionSt`;
the plan files and the chat log are `World`.  The transport result of the
completion call enters as `status` plus the assistant content `raw`
(`data["choices"][0]["message"]["content"]`); `load_previous_p_history`
(line 620) only reads state and is elided here. -/

structure Msg where
  role : List Char
  content : Json
  emotion : Option Json
deriving DecidableEq

structure SessionSt where
  history_p : List Msg
  history_h : List Msg
  plan : Option Json
deriving DecidableEq

structure World where
  plan_files : FS
  chat_log : Option (List LogRow)
deriving DecidableEq

/-- `log_row` (lines 50-55): create-if-missing, then append one row.  The
timestamp is not modelled (empty); `day` is written as `str(day)`. -/
def log_row (log : Option (List LogRow)) (participant_id : List Char) (day : Int)
    (agent role text emotion : List Char) : List LogRow :=
  (log.getD []) ++ [⟨[], participant_id, intToChars day, agent, role, text, emotion⟩]

/-- `str()` of a json value as the CSV writer stringifies it: exact for the
cases the app produces (strings), a defined stand-in elsewhere. -/
def pyStr : Json → List Char
  | .str s => s
  | .null => strOf "None"
  | .bool true => strOf "True"
  | .bool false => strOf "False"
  | .num n => intToChars n
  | .arr l => render (.arr l)
  | .obj l => render (.obj l)

/-- Truthiness of `st.session_state.plan` (`None` or a json value). -/
def pyTruthyOpt : Option Json → Bool
  | none => false
  | some j => pyTruthy j

/-- `plan and isinstance(plan, dict) and plan.get("scenarios")`
(lines 555 and 590). -/
def planUsable (p : Json) : Bool :=
  pyTruthy p && isObj p &&
    (match p with
     | .obj fields =>
       match dictGet fields (strOf "scenarios") with
       | some v => pyTruthy v
       | none => false
     | _ => false)

/-- Reading the four template fields from a scenario requires a dict
(`s.get(...)` raises otherwise). -/
def fieldsReadable (s : Json) : Bool := isObj s

/-- `plan["scenarios"][0]` (line 593): `none` marks the raising cases
(missing key, non-list value, empty list). -/
def firstScenario (p : Json) : Option Json :=
  match p with
  | .obj fields =>
    match dictGet fields (strOf "scenarios") with
    | some (.arr (s :: _)) => some s
    | _ => none
  | _ => none

/-- Agent-P prompt composition for day ≠ 1 (lines 553-578): read the
session plan or else the plan file and summarize today's scenarios.
`some ()` when composition completes, `none` when it raises; the session
plan cache is never written here. -/
def composeP (sess : SessionSt) (fs : FS) (participant_id : List Char) (day : Int) :
    Option Unit :=
  if day = 1 then some ()
  else
    match (if pyTruthyOpt sess.plan then some sess.plan
           else load_plan_from_file fs participant_id) with
    | none => none
    | some existing_plan =>
      match existing_plan with
      | some p =>
        if planUsable p then
          match scenarios_for_day p day with
          | none => none
          | some day_scenarios =>
            if day_scenarios.isEmpty then some ()
            else if day_scenarios.all fieldsReadable then some () else none
        else some ()
      | none => some ()

/-- Agent-H prompt composition (lines 583-609): fill the session plan cache
from the plan file when the cache is empty, then either the role-play
template (needs a usable plan and a readable scenario) or the fallback
persona.  Returns the new value of `st.session_state.plan`, `none` when
composition raises. -/
def composeH (sess : SessionSt) (fs : FS) (participant_id : List Char) (day : Int) :
    Option (Option Json) :=
  match (if pyTruthyOpt sess.plan then some (sess.plan, sess.plan)
         else
           match load_plan_from_file fs participant_id with
           | none => none
           | some loaded =>
             some (loaded, if pyTruthyOpt loaded then loaded else sess.plan)) with
  | none => none
  | some (plan, cache) =>
    match plan with
    | some p =>
      if planUsable p then
        match scenarios_for_day p day with
        | none => none
        | some day_scenarios =>
          match (match day_scenarios with
                 | s :: _ => some s
                 | [] => firstScenario p) with
          | none => none
          | some s => if fieldsReadable s then some cache else none
      else some cache
    | none => some cache

/-- The state effect of prompt composition for the selected agent: the new
session plan cache (unchanged for Agent-P). -/
def composeState (sess : SessionSt) (fs : FS) (participant_id : List Char) (day : Int)
    (isP : Bool) : Option (Option Json) :=
  if isP then (composeP sess fs participant_id day).map (fun _ => sess.plan)
  else composeH sess fs participant_id day

/-- `append_history` of the user's message (lines 497-499). -/
def appendUserMsg (sess : SessionSt) (isP : Bool) (user_input : List Char) : SessionSt :=
  if isP then
    { sess with history_p := sess.history_p ++ [⟨strOf "user", .str user_input, none⟩] }
  else
    { sess with history_h := sess.history_h ++ [⟨strOf "user", .str user_input, none⟩] }

/-- `current_agent_label` (line 494). -/
def agentLabel (isP : Bool) : List Char :=
  if isP then strOf "Agent-P" else strOf "Agent-H"

/-- One full turn of the `if user_input:` block.  Result: `none` when the
turn raises; otherwise the new session state, the new world, and `true`
iff the turn ran to completion (`false` = `st.error` + `st.stop()` on a
non-200 response, line 645-647). -/
def runTurn (sess : SessionSt) (w : World) (participant_id : List Char) (day : Int)
    (isP : Bool) (user_input : List Char) (status : Int) (raw : List Char) :
    Option (SessionSt × World × Bool) :=
  let sess1 := appendUserMsg sess isP user_input
  let log1 := log_row w.chat_log participant_id day (agentLabel isP) (strOf "user")
    user_input []
  match composeState sess1 w.plan_files participant_id day isP with
  | none => none
  | some cache =>
    let sess2 := { sess1 with plan := cache }
    if status ≠ 200 then
      some (sess2, { w with chat_log := some log1 }, false)
    else
      match extract raw with
      | none => none
      | some er =>
        let sess3 := if isObj er.plan then { sess2 with plan := some er.plan } else sess2
        let files2 :=
          if isObj er.plan then
            fsWrite w.plan_files (plan_file_path participant_id) (render er.plan)
          else w.plan_files
        let asst : Msg := ⟨strOf "assistant", er.text, some er.emotion⟩
        let sess4 :=
          if isP then { sess3 with history_p := sess3.history_p ++ [asst] }
          else { sess3 with history_h := sess3.history_h ++ [asst] }
        let log2 := log_row (some log1) participant_id day (agentLabel isP)
          (strOf "assistant") (pyStr er.text) (pyStr er.emotion)
        some (sess4, ⟨files2, some log2⟩, true)

/-! # Claims -/

/-- C7: `level_for_day` is total and deterministic over the valid day range
(it is a Lean function, hence deterministic; the catch-all branch makes it
total), with day 1 → "low", day 2 → "medium", day 3 → "high".  A day
outside 1..3 is a caller precondition, not handled specially beyond the
catch-all. -/
theorem c7_level_for_day_values :
    level_for_day 1 = strOf "low" ∧ level_for_day 2 = strOf "medium" ∧
      level_for_day 3 = strOf "high" := by
  refine ⟨by decide, by decide, by decide⟩

/-- C3: whenever the cleaned, brace-sliced span of a raw model response
fails to parse, extraction returns exactly the original raw string as
`text`, emotion "unknown", and a null plan. -/
theorem c3_extract_fallback (raw : List Char) (h : pyLoads (jsonStrOf raw) = none) :
    extract raw = some ⟨.str raw, .str (strOf "unknown"), .null⟩ := by
  unfold extract
  rw [h]

theorem c3_extract_fallback_witness :
    pyLoads (jsonStrOf (strOf "sorry, here is my plan")) = none ∧
    extract (strOf "sorry, here is my plan")
      = some ⟨.str (strOf "sorry, here is my plan"), .str (strOf "unknown"), .null⟩ :=
  ⟨by decide, c3_extract_fallback (strOf "sorry, here is my plan") (by decide)⟩

/-- C2 (amended): extraction completes without raising exactly when the
parse step fails or yields a mapping; when the parse succeeds with a
non-mapping value (bare number, list, string, bool, null), the field
read-out `parsed.get` raises an uncaught `AttributeError`. -/
theorem c2_extract_total_iff (raw : List Char) :
    (extract raw).isSome
      = (match pyLoads (jsonStrOf raw) with
         | some v => isObj v
         | none => true) := by
  unfold extract
  cases h : pyLoads (jsonStrOf raw) with
  | none => rfl
  | some v => cases v <;> rfl

/-- C2 counterexample: on the raw output "42" the parse step succeeds with
a non-mapping and extraction raises rather than completing. -/
theorem c2_extract_counterexample : extract (strOf "42") = none := by decide

/-- C5: saving a plan and loading it back under the same participant id
returns a deeply equal value (structural equality, so scenario order is
preserved); loading a participant whose plan file does not exist returns
None without raising. -/
theorem c5_save_load_roundtrip :
    (∀ (fs : FS) (participant_id : List Char) (plan : Json),
      load_plan_from_file (save_plan_to_file fs participant_id plan) participant_id
        = some (some plan)) ∧
    (∀ (fs : FS) (participant_id : List Char),
      fsRead fs (plan_file_path participant_id) = none →
      load_plan_from_file fs participant_id = some none) := by
  constructor
  · intro fs pid plan
    unfold load_plan_from_file save_plan_to_file fsWrite fsRead
    simp [List.lookup, pyLoads_render plan]
  · intro fs pid h
    unfold load_plan_from_file
    rw [h]

theorem c5_save_load_roundtrip_witness :
    load_plan_from_file (save_plan_to_file [] (strOf "P01")
        (Json.obj [(strOf "level", .str (strOf "low")),
          (strOf "scenarios", .arr [.obj [(strOf "title", .str ['A'])],
            .obj [(strOf "title", .str ['B'])]])])) (strOf "P01")
      = some (some (Json.obj [(strOf "level", .str (strOf "low")),
          (strOf "scenarios", .arr [.obj [(strOf "title", .str ['A'])],
            .obj [(strOf "title", .str ['B'])]])])) ∧
    load_plan_from_file [] (strOf "P02") = some none :=
  ⟨c5_save_load_roundtrip.1 [] _ _, c5_save_load_roundtrip.2 [] (strOf "P02") (by decide)⟩

/-- The fill loop never grows the selection beyond two entries. -/
theorem fillLoop_length_le (l : List Json) : ∀ sel : List Json, sel.length ≤ 1 →
    (fillLoop l sel).length ≤ 2 := by
  induction l with
  | nil =>
    intro sel h
    rw [fillLoop]
    omega
  | cons s rest ih =>
    intro sel h
    rw [fillLoop]
    by_cases hm : s ∈ sel
    · rw [if_pos hm]
      exact ih sel h
    · rw [if_neg hm]
      dsimp only []
      have hsl : (sel ++ [s]).length = sel.length + 1 := by simp
      by_cases h2 : 2 ≤ (sel ++ [s]).length
      · rw [if_pos h2]
        omega
      · rw [if_neg h2]
        exact ih _ (by omega)

/-- The three final fallbacks (positional slice / first two / as-is) all
return at most two scenarios. -/
theorem fallback_length_le (ss : List Json) (day : Int) (l : List Json)
    (h : (if 6 ≤ ss.length then
            some (if day = 1 then pySlice ss 0 2
                  else if day = 2 then pySlice ss 2 4 else pySlice ss 4 6)
          else if 2 ≤ ss.length then some (ss.take 2) else some ss) = some l) :
    l.length ≤ 2 := by
  by_cases h6 : 6 ≤ ss.length
  · rw [if_pos h6] at h
    injection h with h
    subst h
    split
    · exact List.length_take_le _ _
    · split
      · exact List.length_take_le _ _
      · exact List.length_take_le _ _
  · rw [if_neg h6] at h
    by_cases hg2 : 2 ≤ ss.length
    · rw [if_pos hg2] at h
      injection h with h
      subst h
      exact List.length_take_le _ _
    · rw [if_neg hg2] at h
      injection h with h
      subst h
      omega

/-- C4: whenever `scenarios_for_day` completes it returns at most two
scenarios; and when at least two scenarios carry the day's level it
returns exactly the first two of them, in plan order. -/
theorem c4_at_most_two_and_level_preference :
    (∀ (plan : Json) (day : Int) (l : List Json),
      scenarios_for_day plan day = some l → l.length ≤ 2) ∧
    (∀ (plan : Json) (day : Int) (ss : List Json),
      getScenariosField plan = some ss →
      2 ≤ (ss.filter (fun s => levelMatches s (level_for_day day))).length →
      scenarios_for_day plan day
        = some ((ss.filter (fun s => levelMatches s (level_for_day day))).take 2)) := by
  constructor
  · intro plan day l h
    unfold scenarios_for_day at h
    cases hg : getScenariosField plan with
    | none => rw [hg] at h; exact absurd h (by simp)
    | some ss =>
      rw [hg] at h
      dsimp only [] at h
      by_cases he : ss.isEmpty = true
      · rw [if_pos he] at h
        injection h with h
        subst h
        simp
      · rw [if_neg he] at h
        by_cases hlt : (List.take 2 (ss.filter (fun s => levelMatches s (level_for_day day)))).length < 2
        · rw [if_pos hlt] at h
          by_cases hfe : (fillLoop ss (List.take 2 (ss.filter (fun s => levelMatches s (level_for_day day))))).isEmpty = true
          · rw [if_pos hfe] at h
            exact fallback_length_le ss day l h
          · rw [if_neg hfe] at h
            injection h with h
            subst h
            exact fillLoop_length_le ss _ (by omega)
        · rw [if_neg hlt] at h
          by_cases hte : (List.take 2 (ss.filter (fun s => levelMatches s (level_for_day day)))).isEmpty = true
          · rw [if_pos hte] at h
            exact fallback_length_le ss day l h
          · rw [if_neg hte] at h
            injection h with h
            subst h
            exact List.length_take_le _ _
  · intro plan day ss hg h2
    unfold scenarios_for_day
    rw [hg]
    dsimp only []
    have hne : ¬ ss.isEmpty = true := by
      cases ss with
      | nil => simp at h2
      | cons a t => simp
    have hlen : (List.take 2 (ss.filter (fun s => levelMatches s (level_for_day day)))).length = 2 := by
      rw [List.length_take]
      omega
    have h3 : ¬ (List.take 2 (ss.filter (fun s => levelMatches s (level_for_day day)))).length < 2 := by
      omega
    have h4 : ¬ (List.take 2 (ss.filter (fun s => levelMatches s (level_for_day day)))).isEmpty = true := by
      intro hemp
      rw [List.isEmpty_eq_true] at hemp
      rw [hemp] at hlen
      simp at hlen
    rw [if_neg hne, if_neg h3, if_neg h4]

def c4plan : Json := .obj [(strOf "scenarios", Json.arr
  [Json.obj [(strOf "level", .str (strOf "low")), (strOf "title", .str ['A'])],
   Json.obj [(strOf "level", .str (strOf "low")), (strOf "title", .str ['B'])],
   Json.obj [(strOf "level", .str (strOf "low")), (strOf "title", .str ['C'])]])]

def c4sel : List Json :=
  [Json.obj [(strOf "level", .str (strOf "low")), (strOf "title", .str ['A'])],
   Json.obj [(strOf "level", .str (strOf "low")), (strOf "title", .str ['B'])]]

theorem c4_at_most_two_and_level_preference_witness :
    c4sel.length ≤ 2 ∧ scenarios_for_day c4plan 1 = some c4sel := by
  constructor
  · exact c4_at_most_two_and_level_preference.1 c4plan 1 c4sel (by decide)
  · rw [c4_at_most_two_and_level_preference.2 c4plan 1
      [Json.obj [(strOf "level", .str (strOf "low")), (strOf "title", .str ['A'])],
       Json.obj [(strOf "level", .str (strOf "low")), (strOf "title", .str ['B'])],
       Json.obj [(strOf "level", .str (strOf "low")), (strOf "title", .str ['C'])]]
      (by decide) (by decide)]
    decide

/-- C8: with the log file present and its rows carrying the two roles the
app itself writes, the prior-history loader returns exactly the rows of
this participant, therapist agent (Agent-P), and strictly earlier day, as
role/content pairs in original (chronological) order; with no log file it
returns the empty list rather than an error. -/
theorem c8_prior_therapist_history :
    (∀ (rows : List LogRow) (participant_id : List Char) (current_day : Int),
      (∀ r ∈ rows, r.role = strOf "user" ∨ r.role = strOf "assistant") →
      load_previous_p_history (some rows) participant_id current_day
        = (rows.filter (fun row =>
            row.participant_id == participant_id &&
            row.agent == strOf "Agent-P" &&
            (match pyToInt row.day with
             | none => false
             | some d => decide (d < current_day)))).map (fun r => (r.role, r.text))) ∧
    (∀ (participant_id : List Char) (current_day : Int),
      load_previous_p_history none participant_id current_day = []) := by
  constructor
  · intro rows pid cur hroles
    unfold load_previous_p_history
    dsimp only []
    congr 1
    apply List.filter_eq_self.mpr
    intro r hr
    rcases hroles r (List.mem_of_mem_filter hr) with h | h <;> simp [h]
  · intro pid cur
    rfl

def c8rows : List LogRow :=
  [⟨[], strOf "P01", strOf "1", strOf "Agent-P", strOf "user", strOf "hi", []⟩,
   ⟨[], strOf "P01", strOf "1", strOf "Agent-P", strOf "assistant", strOf "ok", strOf "neutral"⟩,
   ⟨[], strOf "P01", strOf "1", strOf "Agent-H", strOf "user", strOf "hey", []⟩,
   ⟨[], strOf "P02", strOf "1", strOf "Agent-P", strOf "user", strOf "x", []⟩,
   ⟨[], strOf "P01", strOf "2", strOf "Agent-P", strOf "user", strOf "today", []⟩]

theorem c8_prior_therapist_history_witness :
    load_previous_p_history (some c8rows) (strOf "P01") 2
      = [(strOf "user", strOf "hi"), (strOf "assistant", strOf "ok")] ∧
    load_previous_p_history none (strOf "P01") 2 = [] := by
  constructor
  · rw [c8_prior_therapist_history.1 c8rows (strOf "P01") 2 (by decide)]
    decide
  · exact c8_prior_therapist_history.2 (strOf "P01") 2

/-! ### String lemmas for the fence-stripping step -/

theorem pyStrip_of_ends (a b : Char) (mid : List Char) (ha : isPyWs a = false)
    (hb : isPyWs b = false) : pyStrip (a :: (mid ++ [b])) = a :: (mid ++ [b]) := by
  unfold pyStrip
  rw [List.dropWhile_cons]
  simp only [ha, Bool.false_eq_true, if_false]
  rw [show (a :: (mid ++ [b])).reverse = b :: (mid.reverse ++ [a]) by simp]
  rw [List.dropWhile_cons]
  simp only [hb, Bool.false_eq_true, if_false]
  simp

theorem pyStrip_append_ws (l : List Char) (w : Char) (hw : isPyWs w = true) :
    pyStrip (l ++ [w]) = pyStrip l := by
  unfold pyStrip
  rw [List.dropWhile_append]
  cases hdl : l.dropWhile isPyWs with
  | nil => simp [hw]
  | cons c m =>
    simp only [List.isEmpty_cons, Bool.false_eq_true, if_false]
    rw [show ((c :: m) ++ [w]).reverse = w :: (c :: m).reverse by simp]
    rw [List.dropWhile_cons]
    simp [hw]

theorem strFindGo_singleton (c : Char) (ys : List Char) :
    ∀ (xs : List Char) (i : Nat), (∀ x ∈ xs, x ≠ c) →
    strFindGo [c] (xs ++ c :: ys) i = some (i + xs.length) := by
  intro xs
  induction xs with
  | nil =>
    intro i _
    show strFindGo [c] (c :: ys) i = some (i + 0)
    rw [strFindGo]
    rw [if_pos (by simp [List.isPrefixOf])]
    simp
  | cons x xs ih =>
    intro i hx
    show strFindGo [c] (x :: (xs ++ c :: ys)) i = _
    rw [strFindGo]
    rw [if_neg (by
      simp only [List.isPrefixOf, Bool.and_eq_true, beq_iff_eq]
      exact fun hand => hx x (List.mem_cons_self x xs) hand.1.symm)]
    rw [ih (i + 1) (fun a ha => hx a (List.mem_cons_of_mem _ ha))]
    congr 1
    simp only [List.length_cons]
    omega

theorem strFind_singleton (c : Char) (xs ys : List Char) (h : ∀ x ∈ xs, x ≠ c) :
    strFind [c] (xs ++ c :: ys) = some xs.length := by
  have h0 := strFindGo_singleton c ys xs 0 h
  simpa [strFind] using h0

theorem rfindFrom_end (p M : List Char) (hp : p ≠ []) :
    ∀ k, k ≤ p.length → rfindFrom p (M ++ p) (M.length + k) = some M.length := by
  intro k
  induction k with
  | zero =>
    intro _
    rw [Nat.add_zero]
    cases hML : M.length with
    | zero =>
      have hM : M = [] := List.length_eq_zero.mp hML
      subst hM
      rw [List.nil_append, rfindFrom]
      rw [if_pos (List.isPrefixOf_iff_prefix.mpr (List.prefix_refl p))]
    | succ m =>
      rw [rfindFrom]
      rw [if_pos (by
        rw [show m + 1 = M.length from hML.symm, List.drop_left]
        exact List.isPrefixOf_iff_prefix.mpr (List.prefix_refl p))]
  | succ k ih =>
    intro hk
    rw [show M.length + (k + 1) = (M.length + k) + 1 by omega]
    rw [rfindFrom]
    rw [if_neg ?_]
    · exact ih (by omega)
    · intro habs
      have h1 := List.IsPrefix.length_le (List.isPrefixOf_iff_prefix.mp habs)
      have h2 : ((M ++ p).drop (M.length + k + 1)).length = p.length - (k + 1) := by
        simp [List.length_drop]
        omega
      have h3 : 1 ≤ p.length := List.length_pos.mpr hp
      omega

theorem strRFind_append_end (p M : List Char) (hp : p ≠ []) :
    strRFind p (M ++ p) = some M.length := by
  unfold strRFind
  rw [show (M ++ p).length = M.length + p.length by simp]
  exact rfindFrom_end p M hp p.length le_rfl

/-- A parse result that is a mapping containing a `text` field. -/
def objHasText : Option Json → Bool
  | some (.obj fields) => (dictGet fields (strOf "text")).isSome
  | _ => false

/-- C6 (amended): extracting a response wrapped in a fenced block (marker
line, newline, content, newline, closing fence) gives the same result as
extracting the bare content, provided the stripped content does not itself
start with a fence and its brace slice parses to a mapping that contains a
`text` field — without a `text` field the fallback default is the raw
input, which differs between the wrapped and unwrapped forms. -/
theorem c6_fence_invariance (lang content : List Char)
    (hlang : '\n' ∉ lang)
    (hnf : (strOf "```").isPrefixOf (pyStrip content) = false)
    (ht : objHasText (pyLoads (braceSlice (pyStrip content))) = true) :
    extract (strOf "```" ++ lang ++ '\n' :: content ++ '\n' :: strOf "```")
      = extract content := by
  have hdata : strOf "```" = ['`', '`', '`'] := rfl
  -- the whole wrapped input, with both string constants expanded
  have hcleanW : cleanOf (['`', '`', '`'] ++ lang ++ '\n' :: content ++ '\n' :: ['`', '`', '`'])
      = pyStrip content := by
    have hshape : ['`', '`', '`'] ++ lang ++ '\n' :: content ++ '\n' :: ['`', '`', '`']
        = '`' :: (('`' :: '`' :: (lang ++ '\n' :: (content ++ '\n' :: ['`', '`']))) ++ ['`']) := by
      simp
    have h1 : pyStrip (['`', '`', '`'] ++ lang ++ '\n' :: content ++ '\n' :: ['`', '`', '`'])
        = ['`', '`', '`'] ++ lang ++ '\n' :: content ++ '\n' :: ['`', '`', '`'] := by
      rw [hshape]
      exact pyStrip_of_ends '`' '`' _ (by decide) (by decide)
    have h2 : (strOf "```").isPrefixOf
        (['`', '`', '`'] ++ lang ++ '\n' :: content ++ '\n' :: ['`', '`', '`']) = true := by
      rw [hdata]
      simp [List.isPrefixOf]
    have h3 : strFind (strOf "\n")
        (['`', '`', '`'] ++ lang ++ '\n' :: content ++ '\n' :: ['`', '`', '`'])
        = some (3 + lang.length) := by
      rw [show (['`', '`', '`'] ++ lang ++ '\n' :: content ++ '\n' :: ['`', '`', '`'] : List Char)
          = (['`', '`', '`'] ++ lang) ++ '\n' :: (content ++ '\n' :: ['`', '`', '`']) by simp]
      rw [show (strOf "\n") = ['\n'] from rfl]
      rw [strFind_singleton '\n' (['`', '`', '`'] ++ lang) _ ?_]
      · congr 1
        simp only [List.length_append, List.length_cons, List.length_nil]
        try omega
      · intro x hx
        rcases List.mem_append.mp hx with h | h
        · simp at h
          subst h
          decide
        · exact fun he => hlang (he ▸ h)
    have h4 : strRFind (strOf "```")
        (['`', '`', '`'] ++ lang ++ '\n' :: content ++ '\n' :: ['`', '`', '`'])
        = some (lang.length + content.length + 5) := by
      rw [show (['`', '`', '`'] ++ lang ++ '\n' :: content ++ '\n' :: ['`', '`', '`'] : List Char)
          = ((['`', '`', '`'] ++ lang ++ '\n' :: content ++ ['\n']) ++ ['`', '`', '`']) by simp]
      rw [hdata]
      rw [strRFind_append_end ['`', '`', '`'] _ (by decide)]
      congr 1
      simp
      omega
    have h5 : pySlice (['`', '`', '`'] ++ lang ++ '\n' :: content ++ '\n' :: ['`', '`', '`'])
        ((3 + lang.length) + 1) (lang.length + content.length + 5) = content ++ ['\n'] := by
      unfold pySlice
      rw [show (['`', '`', '`'] ++ lang ++ '\n' :: content ++ '\n' :: ['`', '`', '`'] : List Char)
          = (['`', '`', '`'] ++ lang ++ ['\n']) ++ ((content ++ ['\n']) ++ ['`', '`', '`']) by simp]
      rw [show (3 + lang.length) + 1 = (['`', '`', '`'] ++ lang ++ ['\n']).length by simp; omega]
      rw [List.drop_left]
      rw [show lang.length + content.length + 5 - (['`', '`', '`'] ++ lang ++ ['\n']).length
          = (content ++ ['\n']).length by simp; omega]
      rw [List.take_left]
    unfold cleanOf
    dsimp only []
    rw [h1, h2]
    rw [if_pos rfl]
    rw [h3, h4]
    simp only []
    rw [h5]
    exact pyStrip_append_ws content '\n' (by decide)
  have hcleanC : cleanOf content = pyStrip content := by
    unfold cleanOf
    dsimp only []
    rw [if_neg (by simp [hnf])]
  rw [hdata]
  unfold extract jsonStrOf
  rw [hcleanW, hcleanC]
  cases hpl : pyLoads (braceSlice (pyStrip content)) with
  | none => rw [hpl] at ht; simp [objHasText] at ht
  | some v =>
    rw [hpl] at ht
    cases v with
    | obj fields =>
      cases hdg : dictGet fields (strOf "text") with
      | none => simp [objHasText, hdg] at ht
      | some t => simp [hdg]
    | null => simp [objHasText] at ht
    | bool b => simp [objHasText] at ht
    | num n => simp [objHasText] at ht
    | str s => simp [objHasText] at ht
    | arr l => simp [objHasText] at ht

theorem c6_fence_invariance_witness :
    extract (strOf "```" ++ strOf "json" ++ '\n' :: strOf "\x7b\"text\": \"hi\"\x7d"
        ++ '\n' :: strOf "```")
      = extract (strOf "\x7b\"text\": \"hi\"\x7d") :=
  c6_fence_invariance (strOf "json") (strOf "\x7b\"text\": \"hi\"\x7d")
    (by decide) (by decide) (by decide)

def c6content : List Char := strOf "\x7b\"emotion\": \"neutral\"\x7d"

/-- C6 counterexample: valid structured content WITHOUT a `text` field.
Wrapped in a fence, extraction defaults `text` to the whole raw (fenced)
string; unwrapped, it defaults to the bare content — the results differ,
refuting the claim for arbitrary valid structured content. -/
theorem c6_counterexample :
    extract (strOf "```\n" ++ c6content ++ strOf "\n```") ≠ extract c6content := by
  decide

/-- C9 (amended): on a non-200 response the turn aborts after the error
message: no assistant entry is appended to either in-session history, the
only new log row is the user's own message, and the plan files are
untouched; session state is intact except that prompt composition — which
runs before the remote call — may have refreshed the in-memory plan cache
from the plan file (peer role with an empty cache). -/
theorem c9_transport_error_aborts (sess : SessionSt) (w : World)
    (participant_id user_input raw : List Char) (day status : Int) (isP : Bool)
    (cache : Option Json)
    (hs : status ≠ 200)
    (hc : composeState (appendUserMsg sess isP user_input) w.plan_files participant_id day isP
      = some cache) :
    runTurn sess w participant_id day isP user_input status raw
      = some ({ appendUserMsg sess isP user_input with plan := cache },
          { w with chat_log := some (log_row w.chat_log participant_id day
              (agentLabel isP) (strOf "user") user_input []) },
          false) := by
  unfold runTurn
  dsimp only []
  rw [hc]
  simp [hs]

theorem c9_transport_error_aborts_witness :
    runTurn ⟨[], [], none⟩ ⟨[], none⟩ (strOf "P01") 1 true (strOf "hi") 500 []
      = some ({ appendUserMsg ⟨[], [], none⟩ true (strOf "hi") with plan := none },
          { plan_files := ([] : FS), chat_log := some (log_row none (strOf "P01") 1
              (agentLabel true) (strOf "user") (strOf "hi") []) },
          false) :=
  c9_transport_error_aborts ⟨[], [], none⟩ ⟨[], none⟩ (strOf "P01") (strOf "hi") [] 1 500
    true none (by decide) (by decide)

def c9plan : Json :=
  Json.obj [(strOf "scenarios", Json.arr [Json.obj [(strOf "title", .str ['T'])]])]

/-- C9 counterexample to the claim as stated: a peer-role (Agent-H) turn
with an empty in-memory plan cache and a saved plan file.  The remote call
fails with status 500, yet the session plan cache changed from `None` to
the stored plan — session state is not left intact beyond the user's own
message of the turn. -/
theorem c9_counterexample :
    (runTurn ⟨[], [], none⟩ ⟨[(plan_file_path (strOf "P01"), render c9plan)], none⟩
        (strOf "P01") 2 false (strOf "hi") 500 []).map (fun r => r.1.plan)
      = some (some c9plan) ∧
    (⟨[], [], none⟩ : SessionSt).plan = none := by
  exact ⟨by decide, rfl⟩

/-- A scenario record carrying a `level` field at all. -/
def hasLevelKey (s : Json) : Bool :=
  match s with
  | .obj fields => (dictGet fields (strOf "level")).isSome
  | _ => false

theorem levelMatches_of_no_key {s : Json} (h : hasLevelKey s = false) (lv : List Char) :
    levelMatches s lv = false := by
  cases s with
  | obj fields =>
    unfold hasLevelKey at h
    unfold levelMatches
    simp only [] at h ⊢
    cases hd : dictGet fields (strOf "level") with
    | none => rfl
    | some v => rw [hd] at h; simp at h
  | null => rfl
  | bool b => rfl
  | num n => rfl
  | str t => rfl
  | arr l => rfl

/-- C1 (amended): when no scenario carries a `level` field, the level filter
finds nothing and the fill loop already returns the first two (distinct)
scenarios — for every day.  The positional-slice branch of lines 144-151
is unreachable for a nonempty scenario list, so only day 1 coincides with
the claimed slice [0,1]; day 2 and day 3 do not receive [2,3] / [4,5]. -/
theorem c1_untagged_first_two (s0 s1 : Json) (rest : List Json) (day : Int)
    (hnl : ∀ s ∈ s0 :: s1 :: rest, hasLevelKey s = false)
    (_hlen : 6 ≤ (s0 :: s1 :: rest).length)
    (hne : s0 ≠ s1) :
    scenarios_for_day (Json.obj [(strOf "scenarios", Json.arr (s0 :: s1 :: rest))]) day
      = some [s0, s1] := by
  have hfilter : (s0 :: s1 :: rest).filter (fun s => levelMatches s (level_for_day day)) = [] := by
    rw [List.filter_eq_nil_iff]
    intro s hs
    simp [levelMatches_of_no_key (hnl s hs)]
  have hget : getScenariosField (Json.obj [(strOf "scenarios", Json.arr (s0 :: s1 :: rest))])
      = some (s0 :: s1 :: rest) := by
    simp [getScenariosField, dictGet, List.lookup, pyTruthy]
  unfold scenarios_for_day
  rw [hget]
  dsimp only []
  rw [if_neg (show ¬ (s0 :: s1 :: rest).isEmpty = true by simp)]
  rw [hfilter]
  simp only [List.take_nil]
  rw [if_pos (show ([] : List Json).length < 2 by simp)]
  rw [fillLoop]
  rw [if_neg (show ¬ s0 ∈ ([] : List Json) by simp)]
  dsimp only []
  rw [if_neg (show ¬ 2 ≤ (([] : List Json) ++ [s0]).length by simp)]
  rw [fillLoop]
  rw [if_neg (show ¬ s1 ∈ ([] : List Json) ++ [s0] by simpa using Ne.symm hne)]
  dsimp only []
  rw [if_pos (show 2 ≤ ((([] : List Json) ++ [s0]) ++ [s1]).length by simp)]
  rw [if_neg (show ¬ ((([] : List Json) ++ [s0]) ++ [s1]).isEmpty = true by simp)]
  simp

theorem c1_untagged_first_two_witness :
    scenarios_for_day (Json.obj [(strOf "scenarios", Json.arr
        [Json.obj [(strOf "title", .str ['A'])], Json.obj [(strOf "title", .str ['B'])],
         Json.obj [(strOf "title", .str ['C'])], Json.obj [(strOf "title", .str ['D'])],
         Json.obj [(strOf "title", .str ['E'])], Json.obj [(strOf "title", .str ['F'])]])]) 2
      = some [Json.obj [(strOf "title", .str ['A'])], Json.obj [(strOf "title", .str ['B'])]] :=
  c1_untagged_first_two _ _
    [Json.obj [(strOf "title", .str ['C'])], Json.obj [(strOf "title", .str ['D'])],
     Json.obj [(strOf "title", .str ['E'])], Json.obj [(strOf "title", .str ['F'])]] 2
    (by decide) (by decide) (by decide)

/-- C1 counterexample: a plan of six untagged, pairwise distinct scenarios;
on day 2 the selector does not return the positional slice [2,3] the claim
requires (it returns the first two scenarios instead). -/
theorem c1_counterexample :
    scenarios_for_day (Json.obj [(strOf "scenarios", Json.arr
        [Json.obj [(strOf "title", .str ['A'])], Json.obj [(strOf "title", .str ['B'])],
         Json.obj [(strOf "title", .str ['C'])], Json.obj [(strOf "title", .str ['D'])],
         Json.obj [(strOf "title", .str ['E'])], Json.obj [(strOf "title", .str ['F'])]])]) 2
      ≠ some [Json.obj [(strOf "title", .str ['C'])], Json.obj [(strOf "title", .str ['D'])]] := by
  decide

/-- C10: the fill rule deduplicates by value (`if s in selected`): a plan
whose scenarios are two equal records carrying no level matching the day
yields a single-element result, not two. -/
theorem c10_fill_dedups (s : Json) (day : Int)
    (h : levelMatches s (level_for_day day) = false) :
    scenarios_for_day (Json.obj [(strOf "scenarios", Json.arr [s, s])]) day
      = some [s] := by
  unfold scenarios_for_day getScenariosField
  simp [dictGet, List.lookup, pyTruthy, List.filter, h, fillLoop]

theorem c10_fill_dedups_witness :
    levelMatches (Json.obj [(strOf "title", .str ['a'])]) (level_for_day 2) = false ∧
    scenarios_for_day (Json.obj [(strOf "scenarios",
        Json.arr [Json.obj [(strOf "title", .str ['a'])],
          Json.obj [(strOf "title", .str ['a'])]])]) 2
      = some [Json.obj [(strOf "title", .str ['a'])]] :=
  ⟨by decide, c10_fill_dedups (Json.obj [(strOf "title", .str ['a'])]) 2 (by decide)⟩

end VChat
